import Mathlib

/-!
Verification of the duplicate-collection detection and reconciliation logic of
the SandwichPlatform repository (file `server/routes/collections.ts`).

The handlers are embedded shallowly:

* A database row of the `sandwich_collections` table is the structure
  `SandwichCollection`.  The `submittedAt` column is only ever consumed through
  `new Date(value).getTime()`, so the field is modelled by that observation:
  `some t` is a value whose conversion yields the finite timestamp `t`
  (milliseconds), `none` is a value whose conversion yields `NaN`.
* JavaScript template-literal keys (`` `${a}-${b}` ``) become string
  concatenation with `"-"`; `${n}` for an integer `n` is `toString n`, which
  agrees with JavaScript number-to-string on integers.
* `Array.prototype.sort(comparefn)` is embedded as the stable insertion sort
  `List.insertionSort le` with `le a b := comparefn a b ≤ 0`, where the
  comparator result is first sent through the ECMAScript `SortCompare` step
  mapping `NaN` to `+0`.  For a comparator that is consistent on the array this
  is exactly the (stable, sorted) result the language specification demands.
* `Map` grouping with `get(key).push(record)` is embedded as: the list of keys
  in first-insertion order, each key mapped to the scan-ordered sublist of
  records having that key.
* The external store call `storage.deleteSandwichCollection(id)` is an oracle
  `del : Int → DelResult`: `ok true` models a truthy "deleted" result,
  `ok false` a falsy "not found" result, `err msg` a thrown error with message
  `msg`.
* Host names are modelled as non-null strings; the handlers other than the OG
  matcher dereference `hostName` unconditionally (`.toLowerCase()` etc.), so a
  null value cannot reach the logic verified here, and the explicit
  `hostName === null` test of the OG early-record filter is subsumed by the
  empty-string test.  ASCII data is assumed for `toLowerCase`/`trim`.
-/

namespace SandwichPlatform

/-- Model of one row of the sandwich-collections table, with `submittedAt`
represented by the result of `new Date(submittedAt).getTime()` (`none` = NaN). -/
structure SandwichCollection where
  id : Int
  hostName : String
  collectionDate : String
  individualSandwiches : Int
  groupCollections : String
  submittedAt : Option Int
deriving DecidableEq

/-- Grouping key of the analyze-duplicates and clean-duplicates handlers:
`` `${collectionDate}-${hostName}-${individualSandwiches}-${groupCollections}` ``. -/
def recordKey (c : SandwichCollection) : String :=
  c.collectionDate ++ "-" ++ c.hostName ++ "-" ++
    toString c.individualSandwiches ++ "-" ++ c.groupCollections

/-- Keys of a `Map` built by insertion, in first-insertion order. -/
def keysInOrder (key : SandwichCollection → String) :
    List SandwichCollection → List String
  | [] => []
  | c :: rest => key c :: (keysInOrder key rest).filter (fun k => k != key c)

/-- The groups of a `Map` built by `get(key).push(record)` over the scan, in
key-insertion order; each group lists its records in scan order. -/
def groupsOf (key : SandwichCollection → String) (l : List SandwichCollection) :
    List (List SandwichCollection) :=
  (keysInOrder key l).map (fun k => l.filter (fun c => key c == k))

/-- The ECMAScript `SortCompare` value of the comparator
`(a, b) => new Date(b.submittedAt).getTime() - new Date(a.submittedAt).getTime()`:
if either operand is `NaN` the subtraction is `NaN`, which `SortCompare` turns
into `+0`. -/
def submittedCompare (a b : SandwichCollection) : Int :=
  match b.submittedAt, a.submittedAt with
  | some tb, some ta => tb - ta
  | _, _ => 0

/-- `a` may be placed before `b` by the sort: comparator value `≤ 0`. -/
def submittedLE (a b : SandwichCollection) : Prop := submittedCompare a b ≤ 0

instance : DecidableRel submittedLE := fun a b =>
  inferInstanceAs (Decidable (submittedCompare a b ≤ 0))

/-- Stable sort of a duplicate group, newest `submittedAt` first — the
embedding of `group.sort((a, b) => new Date(b.submittedAt).getTime() - new Date(a.submittedAt).getTime())`. -/
def sortBySubmittedDesc (g : List SandwichCollection) : List SandwichCollection :=
  List.insertionSort submittedLE g

/-- `a` before `b` under the comparator `(a, b) => b.id - a.id` (descending id). -/
def idDescLE (a b : SandwichCollection) : Prop := b.id - a.id ≤ 0

instance : DecidableRel idDescLE := fun a b =>
  inferInstanceAs (Decidable (b.id - a.id ≤ 0))

/-- Embedding of `collectionsToDelete.sort((a, b) => b.id - a.id)`. -/
def sortByIdDesc (l : List SandwichCollection) : List SandwichCollection :=
  List.insertionSort idDescLE l

/-- One entry of the `duplicates` array of the analyze-duplicates response.
`entries` holds the group after the in-place sort, `count` its length,
`keepNewest` the first sorted element, `toDelete` the rest. -/
structure DupGroup where
  entries : List SandwichCollection
  count : Nat
  keepNewest : Option SandwichCollection
  toDelete : List SandwichCollection
deriving DecidableEq

/-- Builds one `duplicates` entry from a group (the object literal at the end
of the analyze-duplicates handler; `group.sort` mutates in place, so `entries`
and `toDelete` both see the sorted array). -/
def mkDupGroup (g : List SandwichCollection) : DupGroup :=
  { entries := sortBySubmittedDesc g
    count := g.length
    keepNewest := (sortBySubmittedDesc g).head?
    toDelete := (sortBySubmittedDesc g).drop 1 }

/-- The `duplicates` array of the analyze-duplicates response: every grouping
class with more than one record, sorted newest-first. -/
def analyzeDuplicates (l : List SandwichCollection) : List DupGroup :=
  ((groupsOf recordKey l).filter (fun g => 1 < g.length)).map mkDupGroup

/-- Two records lie in one group of the analyze-duplicates `Map`. -/
def inSameDuplicateGroup (l : List SandwichCollection)
    (r1 r2 : SandwichCollection) : Prop :=
  ∃ g ∈ groupsOf recordKey l, r1 ∈ g ∧ r2 ∈ g

instance (l : List SandwichCollection) (r1 r2 : SandwichCollection) :
    Decidable (inSameDuplicateGroup l r1 r2) :=
  inferInstanceAs (Decidable (∃ g ∈ groupsOf recordKey l, r1 ∈ g ∧ r2 ∈ g))

/-! ### String helpers (JavaScript `toLowerCase`, `startsWith`, `includes`,
`trim`, and the concrete regexes, on ASCII data) -/

/-- Character list of `hostName.toLowerCase()` (ASCII model). -/
def lowerChars (s : String) : List Char := s.data.map Char.toLower

/-- `s.startsWith(p)` on character lists. -/
def hasStart : List Char → List Char → Bool
  | _, [] => true
  | [], _ :: _ => false
  | c :: cs, p :: ps => c == p && hasStart cs ps

/-- `s.includes(p)` on character lists. -/
def hasSub : List Char → List Char → Bool
  | [], p => p.isEmpty
  | c :: cs, p => hasStart (c :: cs) p || hasSub cs p

/-- `\d` of the JavaScript regexes: an ASCII digit. -/
def isDigitCh (c : Char) : Bool := decide ('0' ≤ c) && decide (c ≤ '9')

/-- Test of `/^group \d-\d$/` (whole string). -/
def matchGroupHyphen : List Char → Bool
  | 'g' :: 'r' :: 'o' :: 'u' :: 'p' :: ' ' :: d1 :: '-' :: d2 :: [] =>
      isDigitCh d1 && isDigitCh d2
  | _ => false

/-- Test of `/^group \d+$/` (whole string). -/
def matchGroupNum : List Char → Bool
  | 'g' :: 'r' :: 'o' :: 'u' :: 'p' :: ' ' :: rest =>
      !rest.isEmpty && rest.all isDigitCh
  | _ => false

/-- Test of `/^Group [1-8]/` — anchored at the start only, so anything may
follow the digit. -/
def matchGroup18Start (s : List Char) : Bool :=
  match s with
  | a :: b :: c :: d :: e :: f :: g :: _ =>
      a == 'G' && b == 'r' && c == 'o' && d == 'u' && e == 'p' && f == ' ' &&
        decide ('1' ≤ g) && decide (g ≤ '8')
  | _ => false

/-- JavaScript whitespace for `trim` (ASCII model). -/
def isWhiteCh (c : Char) : Bool := c == ' ' || c == '\t' || c == '\n' || c == '\r'

/-- `hostName.trim()` on character lists. -/
def trimChars (s : List Char) : List Char :=
  ((s.dropWhile isWhiteCh).reverse.dropWhile isWhiteCh).reverse

/-! ### Suspicious-pattern classifiers -/

/-- Lower-cased host name of a record. -/
def hostLower (r : SandwichCollection) : List Char := lowerChars r.hostName

/-- Narrow suspicious classifier of the analyze-duplicates handler:
`loc ` start, `/^group \d-\d$/`, or a `test`/`duplicate` substring, all on the
lower-cased host name. -/
def narrowSuspicious (r : SandwichCollection) : Bool :=
  hasStart (hostLower r) ("loc ".data) || matchGroupHyphen (hostLower r) ||
    hasSub (hostLower r) ("test".data) || hasSub (hostLower r) ("duplicate".data)

/-- Broad suspicious classifier of the clean-duplicates handler in
`suspicious` mode: the narrow tests plus `/^group \d+$/`. -/
def broadSuspicious (r : SandwichCollection) : Bool :=
  hasStart (hostLower r) ("loc ".data) || matchGroupHyphen (hostLower r) ||
    matchGroupNum (hostLower r) ||
    hasSub (hostLower r) ("test".data) || hasSub (hostLower r) ("duplicate".data)

/-! ### OG Sandwich Project cross-matching -/

def ogHostName : String := "OG Sandwich Project"

/-- Membership in `ogCollections`: the host name is exactly the OG project. -/
def isOgB (c : SandwichCollection) : Bool := c.hostName == ogHostName

/-- Membership in `earlyCollections`: not the OG host, and the host name is
empty, whitespace-only, or contains `unknown`/`no location` case-insensitively
(the `hostName === null` disjunct of the source is subsumed by the empty-string
test in this non-null model). -/
def isEarlyB (c : SandwichCollection) : Bool :=
  !isOgB c &&
    (c.hostName == "" || (trimChars c.hostName.data).isEmpty ||
      hasSub (hostLower c) ("unknown".data) ||
      hasSub (hostLower c) ("no location".data))

/-- OG-map key: `` `${collectionDate}-${individualSandwiches}` ``. -/
def ogKey (c : SandwichCollection) : String :=
  c.collectionDate ++ "-" ++ toString c.individualSandwiches

def ogEarlyReason : String := "Same date and sandwich count as OG Project entry"

def ogDupReason : String := "Duplicate OG Project entry"

/-- One element of the `ogDuplicates` array: an OG/early pairing or an OG/OG
pairing, with its reason string. -/
inductive OgMatch where
  | ogEarly (ogEntry earlyEntry : SandwichCollection) (reason : String)
  | ogDup (ogEntry duplicateOgEntry : SandwichCollection) (reason : String)
deriving DecidableEq

/-- The OG/early pairings: for each early record whose OG-key occurs among the
OG records, pair it with the first OG record at that key. -/
def ogEarlyMatches (l : List SandwichCollection) : List OgMatch :=
  (l.filter isEarlyB).filterMap (fun e =>
    match ((l.filter isOgB).filter (fun o => ogKey o == ogKey e)).head? with
    | some o => some (OgMatch.ogEarly o e ogEarlyReason)
    | none => none)

/-- The OG/OG pairings: for each OG-key group with more than one record, every
record after the newest is paired with the newest. -/
def ogDupMatches (l : List SandwichCollection) : List OgMatch :=
  ((keysInOrder ogKey (l.filter isOgB)).map (fun k =>
    let g := (l.filter isOgB).filter (fun o => ogKey o == k)
    if 1 < g.length then
      match sortBySubmittedDesc g with
      | [] => []
      | keep :: rest => rest.map (fun d => OgMatch.ogDup keep d ogDupReason)
    else [])).flatten

/-- The `ogDuplicates` array of the analyze-duplicates response (early
pairings are pushed before the OG/OG pairings). -/
def ogDuplicates (l : List SandwichCollection) : List OgMatch :=
  ogEarlyMatches l ++ ogDupMatches l

/-! ### Deletion loops and responses -/

/-- Outcome of one `storage.deleteSandwichCollection(id)` call: a truthy or
falsy result, or a thrown error with its message. -/
inductive DelResult where
  | ok (deleted : Bool)
  | err (msg : String)
deriving DecidableEq

/-- The delete call on a record returned a truthy result. -/
def isOkTrue (del : Int → DelResult) (c : SandwichCollection) : Bool :=
  del c.id == DelResult.ok true

/-- Error-list entry contributed by one candidate of the clean-duplicates
loop, if any: only a thrown error is recorded (a falsy result is silent there).
The `isNaN(Number(collection.id))` guard of the source can never fire in this
model, where ids are integers. -/
def cleanErrOf (del : Int → DelResult) (c : SandwichCollection) : Option String :=
  match del c.id with
  | DelResult.err m =>
      some ("Failed to delete collection " ++ toString c.id ++ ": " ++ m)
  | _ => none

/-- The clean-duplicates deletion loop: returns the final `deletedCount` and
the error list, processing every candidate independently. -/
def cleanLoop (del : Int → DelResult) :
    List SandwichCollection → Nat × List String
  | [] => (0, [])
  | c :: rest =>
    let r := cleanLoop del rest
    match del c.id with
    | DelResult.ok true => (r.1 + 1, r.2)
    | DelResult.ok false => r
    | DelResult.err m =>
        (r.1, ("Failed to delete collection " ++ toString c.id ++ ": " ++ m) :: r.2)

/-- The deletion candidates of clean-duplicates in `exact` mode: for every
grouping class with more than one record, everything after the newest. -/
def exactDeleteCandidates (l : List SandwichCollection) : List SandwichCollection :=
  ((groupsOf recordKey l).map (fun g =>
    if 1 < g.length then (sortBySubmittedDesc g).drop 1 else [])).flatten

/-- The `collectionsToDelete` list of the clean-duplicates handler for a given
`mode` (no branch handles any other mode, so the list stays empty there). -/
def cleanCandidates (mode : String) (l : List SandwichCollection) :
    List SandwichCollection :=
  if mode == "exact" then exactDeleteCandidates l
  else if mode == "suspicious" then l.filter broadSuspicious
  else []

/-- JSON response of the clean-duplicates handler (`errors` is `none` when the
field is left `undefined`). -/
structure CleanResponse where
  message : String
  deletedCount : Nat
  totalFound : Nat
  errors : Option (List String)
  mode : String
deriving DecidableEq

/-- The clean-duplicates handler: compute candidates for the mode, delete in
descending id order, report. -/
def cleanDuplicates (mode : String) (l : List SandwichCollection)
    (del : Int → DelResult) : CleanResponse :=
  { message := "Successfully cleaned " ++
      toString (cleanLoop del (sortByIdDesc (cleanCandidates mode l))).1 ++
      " duplicate entries using " ++ mode ++ " mode"
    deletedCount := (cleanLoop del (sortByIdDesc (cleanCandidates mode l))).1
    totalFound := (cleanCandidates mode l).length
    errors :=
      if (cleanLoop del (sortByIdDesc (cleanCandidates mode l))).2.isEmpty then none
      else some ((cleanLoop del (sortByIdDesc (cleanCandidates mode l))).2.take 5)
    mode := mode }

/-- Ids the clean-duplicates handler issues delete calls for, in call order. -/
def cleanDeleteCallIds (mode : String) (l : List SandwichCollection) : List Int :=
  (sortByIdDesc (cleanCandidates mode l)).map (fun c => c.id)

/-- Store contents after a run in which every issued delete call succeeded:
exactly the records whose id is not among the candidates. -/
def storeAfterAllOk (cands l : List SandwichCollection) : List SandwichCollection :=
  l.filter (fun r => !cands.any (fun c => c.id == r.id))

/-- Store contents after a fully successful clean-duplicates run in `exact`
mode. -/
def afterExactClean (l : List SandwichCollection) : List SandwichCollection :=
  storeAfterAllOk (exactDeleteCandidates l) l

/-! ### Bulk delete and batch delete -/

/-- Selection predicate of the bulk delete endpoint:
`hostName.startsWith("Loc ") || /^Group [1-8]/.test(hostName)`. -/
def bulkPredicateB (r : SandwichCollection) : Bool :=
  hasStart r.hostName.data ("Loc ".data) || matchGroup18Start r.hostName.data

/-- The bulk-delete loop counts truthy deletes; thrown errors are only logged. -/
def bulkLoopCount (del : Int → DelResult) : List SandwichCollection → Nat
  | [] => 0
  | c :: rest =>
    match del c.id with
    | DelResult.ok true => bulkLoopCount del rest + 1
    | _ => bulkLoopCount del rest

/-- JSON response of the bulk delete endpoint. -/
structure BulkResponse where
  message : String
  deletedCount : Nat
  patterns : List String
deriving DecidableEq

/-- The bulk delete handler: select by host-name patterns, delete in
descending id order, report. -/
def bulkDelete (l : List SandwichCollection) (del : Int → DelResult) :
    BulkResponse :=
  { message := "Successfully deleted " ++
      toString (bulkLoopCount del (sortByIdDesc (l.filter bulkPredicateB))) ++
      " duplicate entries"
    deletedCount := bulkLoopCount del (sortByIdDesc (l.filter bulkPredicateB))
    patterns := ["Loc *", "Group 1-8"] }

/-- `a` before `b` under the comparator `(a, b) => b - a` on raw ids. -/
def intDescLE (a b : Int) : Prop := b - a ≤ 0

instance : DecidableRel intDescLE := fun a b =>
  inferInstanceAs (Decidable (b - a ≤ 0))

/-- Error-list entry contributed by one id of the batch-delete loop, if any:
a falsy result records "not found", a thrown error records its message. -/
def batchErrOf (del : Int → DelResult) (i : Int) : Option String :=
  match del i with
  | DelResult.ok true => none
  | DelResult.ok false => some ("Collection with ID " ++ toString i ++ " not found")
  | DelResult.err m =>
      some ("Failed to delete collection " ++ toString i ++ ": " ++ m)

/-- The batch-delete per-id loop: final `deletedCount` and error list. -/
def batchLoop (del : Int → DelResult) : List Int → Nat × List String
  | [] => (0, [])
  | i :: rest =>
    let r := batchLoop del rest
    match del i with
    | DelResult.ok true => (r.1 + 1, r.2)
    | DelResult.ok false =>
        (r.1, ("Collection with ID " ++ toString i ++ " not found") :: r.2)
    | DelResult.err m =>
        (r.1, ("Failed to delete collection " ++ toString i ++ ": " ++ m) :: r.2)

/-- JSON response of the batch-delete endpoint. -/
structure BatchResponse where
  message : String
  deletedCount : Nat
  totalRequested : Nat
  errors : Option (List String)
deriving DecidableEq

/-- The batch-delete handler: an empty id list is rejected up front, otherwise
every id is processed independently in descending order. -/
def batchDelete (ids : List Int) (del : Int → DelResult) :
    Except String BatchResponse :=
  if ids.isEmpty then Except.error ("Invalid or empty IDs array")
  else
    Except.ok
      { message := "Successfully deleted " ++
          toString (batchLoop del (List.insertionSort intDescLE ids)).1 ++
          " of " ++ toString ids.length ++ " collections"
        deletedCount := (batchLoop del (List.insertionSort intDescLE ids)).1
        totalRequested := ids.length
        errors :=
          if (batchLoop del (List.insertionSort intDescLE ids)).2.isEmpty then none
          else some ((batchLoop del (List.insertionSort intDescLE ids)).2.take 5) }

/-- The grouping-class of key `k`: all records of `l` whose `recordKey` is `k`,
in scan order (the content of the `Map` entry for `k`). -/
def keyGroup (l : List SandwichCollection) (k : String) : List SandwichCollection :=
  l.filter (fun c => recordKey c == k)

/-- Parsed `submittedAt` of a record, for stating ordering properties (only
used under the hypothesis that the timestamp parses). -/
def timeOf (c : SandwichCollection) : Int := c.submittedAt.getD 0

/-! ### Concrete instances used by witnesses and counterexamples -/

/-- Delete oracle answering a truthy delete for every id. -/
def alwaysOkDel : Int → DelResult := fun _ => DelResult.ok true

/-- Delete oracle answering a falsy "not found" for every id. -/
def notFoundDel : Int → DelResult := fun _ => DelResult.ok false

/-- Delete oracle that throws on id 2 and answers truthy elsewhere. -/
def boomDel : Int → DelResult := fun i =>
  if i == 2 then DelResult.err ("boom") else DelResult.ok true

/-- The delete call on a record threw an error. -/
def isThrown (del : Int → DelResult) (c : SandwichCollection) : Bool :=
  match del c.id with
  | DelResult.err _ => true
  | _ => false

/-- Record whose (date, host) tuple differs from `c1B` while the concatenated
grouping keys coincide. -/
def c1A : SandwichCollection := ⟨1, "05-Alpha", "2021-01", 5, "[]", some 0⟩

def c1B : SandwichCollection := ⟨2, "Alpha", "2021-01-05", 5, "[]", some 0⟩

/-- Older member of an exact-duplicate pair. -/
def c2old : SandwichCollection := ⟨1, "Alpha", "2024-05-01", 10, "[]", some 100⟩

/-- Newer member of an exact-duplicate pair. -/
def c2new : SandwichCollection := ⟨2, "Alpha", "2024-05-01", 10, "[]", some 200⟩

/-- Record whose `submittedAt` does not parse (`new Date(...)` gives `NaN`). -/
def c4bad : SandwichCollection := ⟨1, "Alpha", "2024-05-01", 10, "[]", none⟩

/-- Record with the same grouping key as `c4bad` and a parsable timestamp. -/
def c4good : SandwichCollection := ⟨2, "Alpha", "2024-05-01", 10, "[]", some 1700000000⟩

def c5group8 : SandwichCollection := ⟨1, "Group 8", "2024-05-01", 10, "[]", some 0⟩

def c5loc : SandwichCollection := ⟨2, "LOC downtown", "2024-05-01", 10, "[]", some 0⟩

/-- OG record whose date ends in a hyphen; its OG key collides with
`c6early` although date and count both differ. -/
def c6og : SandwichCollection := ⟨1, "OG Sandwich Project", "2021-01-", 5, "[]", some 0⟩

def c6early : SandwichCollection := ⟨2, "", "2021-01", -5, "[]", some 0⟩

/-- The OG record of the spec's matching example. -/
def c6ogW : SandwichCollection := ⟨1, "OG Sandwich Project", "2021-01-05", 100, "[]", some 0⟩

/-- The early record of the spec's matching example. -/
def c6earlyW : SandwichCollection := ⟨2, "", "2021-01-05", 100, "[]", some 0⟩

/-- Suspicious records (host contains `test`) with ids 1, 2, 3. -/
def c7rec1 : SandwichCollection := ⟨1, "test kitchen a", "2024-05-01", 1, "[]", some 0⟩

def c7rec2 : SandwichCollection := ⟨2, "test kitchen b", "2024-05-02", 2, "[]", some 0⟩

def c7rec3 : SandwichCollection := ⟨3, "test kitchen c", "2024-05-03", 3, "[]", some 0⟩

/-! ## Helper lemmas -/

lemma cleanLoop_spec (del : Int → DelResult) (cs : List SandwichCollection) :
    cleanLoop del cs = (cs.countP (isOkTrue del), cs.filterMap (cleanErrOf del)) := by
  induction cs with
  | nil => rfl
  | cons c rest ih =>
    cases h : del c.id with
    | ok b =>
      cases b <;>
        simp [cleanLoop, h, isOkTrue, cleanErrOf, List.countP_cons, ih]
    | err m =>
      simp [cleanLoop, h, isOkTrue, cleanErrOf, List.countP_cons, ih]

lemma batchLoop_spec (del : Int → DelResult) (ids : List Int) :
    batchLoop del ids =
      (ids.countP (fun i => del i == DelResult.ok true), ids.filterMap (batchErrOf del)) := by
  induction ids with
  | nil => rfl
  | cons i rest ih =>
    cases h : del i with
    | ok b =>
      cases b <;> simp [batchLoop, h, batchErrOf, List.countP_cons, ih]
    | err m =>
      simp [batchLoop, h, batchErrOf, List.countP_cons, ih]

lemma bulkLoopCount_spec (del : Int → DelResult) (cs : List SandwichCollection) :
    bulkLoopCount del cs = cs.countP (isOkTrue del) := by
  induction cs with
  | nil => rfl
  | cons c rest ih =>
    cases h : del c.id with
    | ok b => cases b <;> simp [bulkLoopCount, h, isOkTrue, List.countP_cons, ih]
    | err m => simp [bulkLoopCount, h, isOkTrue, List.countP_cons, ih]

lemma length_filterMap_eq_countP {α β : Type} (f : α → Option β) (l : List α) :
    (l.filterMap f).length = l.countP (fun a => (f a).isSome) := by
  induction l with
  | nil => rfl
  | cons a l ih => cases h : f a <;> simp [List.filterMap_cons, h, List.countP_cons, ih]

lemma countP_sortByIdDesc (p : SandwichCollection → Bool) (l : List SandwichCollection) :
    (sortByIdDesc l).countP p = l.countP p :=
  (List.perm_insertionSort idDescLE l).countP_eq p

lemma length_sortByIdDesc (l : List SandwichCollection) :
    (sortByIdDesc l).length = l.length :=
  (List.perm_insertionSort idDescLE l).length_eq

lemma mem_keysInOrder {key : SandwichCollection → String} {l : List SandwichCollection}
    {k : String} : k ∈ keysInOrder key l ↔ ∃ c ∈ l, key c = k := by
  induction l with
  | nil => simp [keysInOrder]
  | cons c rest ih =>
    simp only [keysInOrder, List.mem_cons, List.mem_filter, ih, bne_iff_ne, ne_eq]
    constructor
    · rintro (rfl | ⟨⟨c', hc', rfl⟩, -⟩)
      · exact ⟨c, Or.inl rfl, rfl⟩
      · exact ⟨c', Or.inr hc', rfl⟩
    · rintro ⟨c', hc', rfl⟩
      rcases hc' with rfl | hc'
      · exact Or.inl rfl
      · by_cases hk : key c' = key c
        · exact Or.inl hk
        · exact Or.inr ⟨⟨c', hc', rfl⟩, hk⟩

lemma mem_groupsOf {key : SandwichCollection → String} {l g : List SandwichCollection} :
    g ∈ groupsOf key l ↔
      ∃ k ∈ keysInOrder key l, g = l.filter (fun c => key c == k) := by
  simp [groupsOf, List.mem_map, eq_comm]

lemma mem_keyGroup {l : List SandwichCollection} {k : String} {r : SandwichCollection} :
    r ∈ keyGroup l k ↔ r ∈ l ∧ recordKey r = k := by
  simp [keyGroup, List.mem_filter]

lemma hasStart_iff (s p : List Char) : hasStart s p = true ↔ ∃ t, s = p ++ t := by
  induction p generalizing s with
  | nil => simp [hasStart]
  | cons pc pt ih =>
    cases s with
    | nil => simp [hasStart]
    | cons c cs =>
      constructor
      · intro h
        rw [hasStart, Bool.and_eq_true, beq_iff_eq] at h
        rcases h with ⟨rfl, h2⟩
        rcases (ih cs).1 h2 with ⟨t, rfl⟩
        exact ⟨t, rfl⟩
      · rintro ⟨t, ht⟩
        simp only [List.cons_append, List.cons.injEq] at ht
        obtain ⟨rfl, rfl⟩ := ht
        rw [hasStart, Bool.and_eq_true, beq_iff_eq]
        exact ⟨rfl, (ih _).2 ⟨t, rfl⟩⟩

lemma matchGroup18Start_iff (s : List Char) :
    matchGroup18Start s = true ↔
      ∃ c t, s = 'G' :: 'r' :: 'o' :: 'u' :: 'p' :: ' ' :: c :: t ∧
        '1' ≤ c ∧ c ≤ '8' := by
  rcases s with _ | ⟨a, _ | ⟨b, _ | ⟨c, _ | ⟨d, _ | ⟨e, _ | ⟨f, _ | ⟨g, t⟩⟩⟩⟩⟩⟩⟩ <;>
    simp [matchGroup18Start, Bool.and_eq_true, beq_iff_eq, List.cons.injEq, and_assoc]

lemma submittedLE_iff_time {a b : SandwichCollection} (ha : a.submittedAt.isSome = true)
    (hb : b.submittedAt.isSome = true) :
    submittedLE a b ↔ timeOf b ≤ timeOf a := by
  rcases Option.isSome_iff_exists.1 ha with ⟨ta, hta⟩
  rcases Option.isSome_iff_exists.1 hb with ⟨tb, htb⟩
  simp only [submittedLE, submittedCompare, timeOf, hta, htb, Option.getD_some]
  omega

lemma sortBySubmittedDesc_head_max {g : List SandwichCollection}
    (hall : ∀ r ∈ g, r.submittedAt.isSome = true) {h : SandwichCollection}
    {t : List SandwichCollection} (hs : sortBySubmittedDesc g = h :: t) :
    ∀ r ∈ g, timeOf r ≤ timeOf h := by
  induction g generalizing h t with
  | nil => simp [sortBySubmittedDesc, List.insertionSort] at hs
  | cons c rest ih =>
    rw [sortBySubmittedDesc, List.insertionSort] at hs
    cases hrest : List.insertionSort submittedLE rest with
    | nil =>
      rw [hrest] at hs
      have hrnil : rest = [] := by
        have hp := List.perm_insertionSort submittedLE rest
        rw [hrest] at hp
        exact (List.perm_nil.1 hp.symm)
      subst hrnil
      simp only [List.orderedInsert, List.cons.injEq] at hs
      obtain ⟨rfl, -⟩ := hs
      intro r hr
      rcases List.mem_cons.1 hr with rfl | hr
      · exact le_refl _
      · simp at hr
    | cons hh tt =>
      rw [hrest] at hs
      have hsub : ∀ r ∈ rest, r.submittedAt.isSome = true :=
        fun r hr => hall r (List.mem_cons_of_mem c hr)
      have hmax := ih hsub hrest
      have hhmem : hh ∈ rest := by
        have h0 : hh ∈ List.insertionSort submittedLE rest := by
          rw [hrest]
          exact List.mem_cons_self hh tt
        simpa using h0
      have hcs : c.submittedAt.isSome = true := hall c (List.mem_cons_self c rest)
      have hhs : hh.submittedAt.isSome = true := hsub hh hhmem
      by_cases hle : submittedLE c hh
      · rw [List.orderedInsert, if_pos hle] at hs
        injection hs with hs1 hs2
        subst hs1
        intro r hr
        rcases List.mem_cons.1 hr with rfl | hr
        · exact le_refl _
        · exact le_trans (hmax r hr) ((submittedLE_iff_time hcs hhs).1 hle)
      · rw [List.orderedInsert, if_neg hle] at hs
        injection hs with hs1 hs2
        subst hs1
        have hlt : timeOf c < timeOf hh := by
          rw [submittedLE_iff_time hcs hhs] at hle
          omega
        intro r hr
        rcases List.mem_cons.1 hr with rfl | hr
        · exact le_of_lt hlt
        · exact hmax r hr

lemma mem_exactDeleteCandidates {l : List SandwichCollection} {r : SandwichCollection} :
    r ∈ exactDeleteCandidates l ↔
      r ∈ l ∧ 1 < (keyGroup l (recordKey r)).length ∧
        r ∈ (sortBySubmittedDesc (keyGroup l (recordKey r))).drop 1 := by
  constructor
  · intro h
    rcases List.mem_flatten.1 h with ⟨gl, hgl, hr⟩
    rcases List.mem_map.1 hgl with ⟨g1, hg1, rfl⟩
    rcases mem_groupsOf.1 hg1 with ⟨k, hk, rfl⟩
    by_cases hlen : 1 < (l.filter (fun c => recordKey c == k)).length
    · rw [if_pos hlen] at hr
      have hrs : r ∈ sortBySubmittedDesc (l.filter (fun c => recordKey c == k)) :=
        List.mem_of_mem_drop hr
      have hrG : r ∈ l.filter (fun c => recordKey c == k) :=
        (List.perm_insertionSort _ _).mem_iff.1 hrs
      have hkey : recordKey r = k := by
        have := (List.mem_filter.1 hrG).2
        simpa using this
      subst hkey
      exact ⟨(List.mem_filter.1 hrG).1, hlen, hr⟩
    · rw [if_neg hlen] at hr
      simp at hr
  · rintro ⟨hrl, hlen, hr⟩
    apply List.mem_flatten.2
    refine ⟨if 1 < (keyGroup l (recordKey r)).length
        then (sortBySubmittedDesc (keyGroup l (recordKey r))).drop 1 else [], ?_, ?_⟩
    · apply List.mem_map.2
      exact ⟨keyGroup l (recordKey r),
        mem_groupsOf.2 ⟨recordKey r, mem_keysInOrder.2 ⟨r, hrl, rfl⟩, rfl⟩, rfl⟩
    · rw [if_pos hlen]
      exact hr

lemma notDeleted_iff {l : List SandwichCollection}
    (hids : (l.map (fun c => c.id)).Nodup) {r : SandwichCollection} (hrl : r ∈ l) :
    ((!(exactDeleteCandidates l).any (fun c => c.id == r.id)) = true) ↔
      r ∉ exactDeleteCandidates l := by
  constructor
  · intro hb hrc
    have hT : (exactDeleteCandidates l).any (fun c => c.id == r.id) = true :=
      List.any_eq_true.2 ⟨r, hrc, by simp⟩
    rw [hT] at hb
    exact absurd hb (by decide)
  · intro hnc
    cases hany : (exactDeleteCandidates l).any (fun c => c.id == r.id)
    · rfl
    · exfalso
      rcases List.any_eq_true.1 hany with ⟨c, hc, hcid⟩
      have hcl : c ∈ l := (mem_exactDeleteCandidates.1 hc).1
      have hcr : c = r :=
        List.inj_on_of_nodup_map hids hcl hrl (by simpa using hcid)
      subst hcr
      exact hnc hc

lemma mem_afterExactClean {l : List SandwichCollection}
    (hids : (l.map (fun c => c.id)).Nodup) {r : SandwichCollection} :
    r ∈ afterExactClean l ↔ r ∈ l ∧ r ∉ exactDeleteCandidates l := by
  rw [afterExactClean, storeAfterAllOk, List.mem_filter]
  exact and_congr_right (fun hrl => notDeleted_iff hids hrl)

lemma afterExactClean_keyGroup {l : List SandwichCollection}
    (hids : (l.map (fun c => c.id)).Nodup) (k : String) :
    (keyGroup (afterExactClean l) k).length ≤ 1 ∧
      (k ∈ keysInOrder recordKey l → (keyGroup (afterExactClean l) k).length = 1) := by
  have hnd : l.Nodup := List.Nodup.of_map _ hids
  have hGnd : (keyGroup l k).Nodup := hnd.filter _
  have hAnodup : (afterExactClean l).Nodup := hnd.filter _
  have hAnd : (keyGroup (afterExactClean l) k).Nodup := hAnodup.filter _
  have hmemA : ∀ r, r ∈ keyGroup (afterExactClean l) k ↔
      r ∈ keyGroup l k ∧ r ∉ exactDeleteCandidates l := by
    intro r
    rw [mem_keyGroup, mem_afterExactClean hids, mem_keyGroup]
    tauto
  by_cases hlen : 1 < (keyGroup l k).length
  · have hperm : List.Perm (sortBySubmittedDesc (keyGroup l k)) (keyGroup l k) :=
      List.perm_insertionSort _ _
    rcases hs : sortBySubmittedDesc (keyGroup l k) with _ | ⟨h0, t0⟩
    · exfalso
      have hle := hperm.length_eq
      rw [hs] at hle
      simp at hle
      omega
    · have hnds : (sortBySubmittedDesc (keyGroup l k)).Nodup := hperm.nodup_iff.2 hGnd
      rw [hs] at hnds
      have hh0t0 : h0 ∉ t0 := (List.nodup_cons.1 hnds).1
      have hmemG : ∀ r, r ∈ keyGroup l k ↔ r = h0 ∨ r ∈ t0 := by
        intro r
        rw [← hperm.mem_iff, hs, List.mem_cons]
      have hcand_iff : ∀ r ∈ keyGroup l k, (r ∈ exactDeleteCandidates l ↔ r ∈ t0) := by
        intro r hr
        have hkey : recordKey r = k := (mem_keyGroup.1 hr).2
        constructor
        · intro hrc
          rcases mem_exactDeleteCandidates.1 hrc with ⟨-, -, hdrop⟩
          rw [hkey, hs] at hdrop
          simpa using hdrop
        · intro hrt
          apply mem_exactDeleteCandidates.2
          rw [hkey]
          exact ⟨(mem_keyGroup.1 hr).1, hlen, by rw [hs]; simpa using hrt⟩
      have hh0G : h0 ∈ keyGroup l k := (hmemG h0).2 (Or.inl rfl)
      have hh0nc : h0 ∉ exactDeleteCandidates l :=
        fun hc => hh0t0 ((hcand_iff h0 hh0G).1 hc)
      have hmemA' : ∀ r, r ∈ keyGroup (afterExactClean l) k ↔ r = h0 := by
        intro r
        rw [hmemA r]
        constructor
        · rintro ⟨hr, hnc⟩
          rcases (hmemG r).1 hr with h | hrt
          · exact h
          · exact absurd ((hcand_iff r hr).2 hrt) hnc
        · intro hr0
          rw [hr0]
          exact ⟨hh0G, hh0nc⟩
      have hsingle : keyGroup (afterExactClean l) k = [h0] := by
        have hmem0 : h0 ∈ keyGroup (afterExactClean l) k := (hmemA' h0).2 rfl
        cases hA : keyGroup (afterExactClean l) k with
        | nil =>
          rw [hA] at hmem0
          simp at hmem0
        | cons x xs =>
          have hx : x = h0 := (hmemA' x).1 (by rw [hA]; exact List.mem_cons_self x xs)
          subst hx
          cases xs with
          | nil => rfl
          | cons y ys =>
            exfalso
            have hy : y = x := (hmemA' y).1
              (by rw [hA]; exact List.mem_cons_of_mem _ (List.mem_cons_self y ys))
            rw [hA] at hAnd
            rcases List.nodup_cons.1 hAnd with ⟨hnx, -⟩
            exact hnx (by rw [hy]; exact List.mem_cons_self x ys)
      rw [hsingle]
      exact ⟨by simp, fun _ => by simp⟩
  · have hnone : ∀ r ∈ keyGroup l k, r ∉ exactDeleteCandidates l := by
      intro r hr hrc
      rcases mem_exactDeleteCandidates.1 hrc with ⟨-, hlen1, -⟩
      have hkey : recordKey r = k := (mem_keyGroup.1 hr).2
      rw [hkey] at hlen1
      exact hlen hlen1
    have heq : keyGroup (afterExactClean l) k = keyGroup l k := by
      rw [afterExactClean, storeAfterAllOk, keyGroup, keyGroup, List.filter_comm]
      apply List.filter_eq_self.2
      intro a ha
      exact (notDeleted_iff hids (List.mem_filter.1 ha).1).2 (hnone a ha)
    rw [heq]
    constructor
    · omega
    · intro hk
      rcases mem_keysInOrder.1 hk with ⟨c, hcl, hck⟩
      have hcG : c ∈ keyGroup l k := mem_keyGroup.2 ⟨hcl, hck⟩
      have := List.length_pos_of_mem hcG
      omega

lemma exactDeleteCandidates_afterExactClean {l : List SandwichCollection}
    (hids : (l.map (fun c => c.id)).Nodup) :
    exactDeleteCandidates (afterExactClean l) = [] := by
  rw [exactDeleteCandidates]
  apply List.flatten_eq_nil_iff.2
  intro gl hgl
  rcases List.mem_map.1 hgl with ⟨g1, hg1, rfl⟩
  rcases mem_groupsOf.1 hg1 with ⟨k, hk, rfl⟩
  have hle := (afterExactClean_keyGroup hids k).1
  rw [keyGroup] at hle
  rw [if_neg (by omega)]

/-! ## Claim theorems -/

/-- C3: after a fully successful exact-mode clean-duplicates run over a store
with pairwise distinct ids, each grouping key of the original scan retains
exactly one record, the recomputed exact-mode candidate set is empty, and a
second exact-mode run deletes nothing (`deletedCount = 0`, `totalFound = 0`). -/
theorem c3_exact_mode_idempotent (l : List SandwichCollection)
    (del : Int → DelResult) (hids : (l.map (fun c => c.id)).Nodup) :
    exactDeleteCandidates (afterExactClean l) = [] ∧
    (cleanDuplicates ("exact") (afterExactClean l) del).deletedCount = 0 ∧
    (cleanDuplicates ("exact") (afterExactClean l) del).totalFound = 0 ∧
    (∀ k ∈ keysInOrder recordKey l, (keyGroup (afterExactClean l) k).length = 1) := by
  have hnil := exactDeleteCandidates_afterExactClean hids
  have hcc : cleanCandidates ("exact") (afterExactClean l) = [] := by
    rw [cleanCandidates]
    simp [hnil]
  refine ⟨hnil, ?_, ?_, fun k hk => (afterExactClean_keyGroup hids k).2 hk⟩
  · show (cleanLoop del (sortByIdDesc (cleanCandidates ("exact") (afterExactClean l)))).1 = 0
    rw [hcc]
    rfl
  · show (cleanCandidates ("exact") (afterExactClean l)).length = 0
    rw [hcc]
    rfl

/-- C3 witness: a two-record duplicate store with distinct ids. -/
theorem c3_witness :
    ([c2old, c2new].map (fun c => c.id)).Nodup ∧
    exactDeleteCandidates (afterExactClean [c2old, c2new]) = [] ∧
    (cleanDuplicates ("exact") (afterExactClean [c2old, c2new]) alwaysOkDel).deletedCount = 0 ∧
    (cleanDuplicates ("exact") (afterExactClean [c2old, c2new]) alwaysOkDel).totalFound = 0 :=
  ⟨by decide,
    (c3_exact_mode_idempotent [c2old, c2new] alwaysOkDel (by decide)).1,
    (c3_exact_mode_idempotent [c2old, c2new] alwaysOkDel (by decide)).2.1,
    (c3_exact_mode_idempotent [c2old, c2new] alwaysOkDel (by decide)).2.2.1⟩

/-- C2 counterexample: the keep-newest claim fails on a duplicate group that
contains an unparsable timestamp.  `c4good` is the record with the maximum
parsed `submittedAt` in its group (the only parsing member), yet the group
produced by analyze-duplicates keeps the unparsable `c4bad` and places
`c4good` in `toDelete` and among the exact-mode deletion candidates. -/
theorem c2_counterexample_unparsable_group :
    analyzeDuplicates [c4bad, c4good] = [mkDupGroup [c4bad, c4good]] ∧
    c4bad.submittedAt = none ∧ c4good.submittedAt = some 1700000000 ∧
    (mkDupGroup [c4bad, c4good]).keepNewest = some c4bad ∧
    c4good ∈ (mkDupGroup [c4bad, c4good]).toDelete ∧
    c4good ∈ exactDeleteCandidates [c4bad, c4good] := by
  decide

/-- C2 (amended): in a duplicate group whose timestamps all parse, the unique record
with the maximal parsed `submittedAt` is `keepNewest`, is not in `toDelete`,
and is not among the exact-mode deletion candidates of clean-duplicates. -/
theorem c2_keep_newest_invariant (l : List SandwichCollection) (g : DupGroup)
    (hg : g ∈ analyzeDuplicates l) (M : SandwichCollection)
    (hM : M ∈ g.entries) (hcount : g.entries.count M = 1)
    (hall : ∀ r ∈ g.entries, r.submittedAt.isSome = true)
    (hmax : ∀ r ∈ g.entries, r ≠ M → timeOf r < timeOf M) :
    g.keepNewest = some M ∧ M ∉ g.toDelete ∧ M ∉ exactDeleteCandidates l := by
  rcases List.mem_map.1 hg with ⟨g0, hg0, rfl⟩
  rcases List.mem_filter.1 hg0 with ⟨hg0m, hlen⟩
  have hlen' : 1 < g0.length := by simpa using hlen
  rcases mem_groupsOf.1 hg0m with ⟨k, hk, rfl⟩
  simp only [mkDupGroup] at hM hcount hall hmax ⊢
  set G := l.filter (fun c => recordKey c == k) with hGdef
  have hperm : List.Perm (sortBySubmittedDesc G) G := List.perm_insertionSort _ _
  cases hs : sortBySubmittedDesc G with
  | nil =>
    exfalso
    have := hperm.length_eq
    rw [hs] at this
    simp at this
    omega
  | cons hh tt =>
    have hallG : ∀ r ∈ G, r.submittedAt.isSome = true := by
      intro r hr
      exact hall r (hperm.mem_iff.2 hr)
    have hheadmax := sortBySubmittedDesc_head_max hallG hs
    have hhent : hh ∈ sortBySubmittedDesc G := by
      rw [hs]
      exact List.mem_cons_self hh tt
    have hMG : M ∈ G := hperm.mem_iff.1 hM
    have hhM : hh = M := by
      by_contra hne
      have h1 := hmax hh hhent hne
      have h2 := hheadmax M hMG
      omega
    subst hhM
    have hnotin : hh ∉ tt := by
      rw [hs, List.count_cons_self] at hcount
      exact List.count_eq_zero.1 (by omega)
    refine ⟨rfl, hnotin, ?_⟩
    intro hMc
    rcases List.mem_flatten.1 hMc with ⟨gl, hgl, hMgl⟩
    rcases List.mem_map.1 hgl with ⟨g1, hg1, rfl⟩
    rcases mem_groupsOf.1 hg1 with ⟨k1, hk1, rfl⟩
    by_cases h1 : 1 < (l.filter (fun c => recordKey c == k1)).length
    · rw [if_pos h1] at hMgl
      have hMs : hh ∈ sortBySubmittedDesc (l.filter (fun c => recordKey c == k1)) :=
        List.mem_of_mem_drop hMgl
      have hM1 : hh ∈ l.filter (fun c => recordKey c == k1) :=
        (List.perm_insertionSort _ _).mem_iff.1 hMs
      have hkey1 : recordKey hh = k1 := by
        have := (List.mem_filter.1 hM1).2
        simpa using this
      have hkey0 : recordKey hh = k := by
        have := (List.mem_filter.1 hMG).2
        simpa using this
      rw [← hkey1, hkey0] at hMgl hMs hM1 h1
      rw [← hGdef] at hMgl
      rw [hs] at hMgl
      exact hnotin hMgl
    · rw [if_neg h1] at hMgl
      simp at hMgl

/-- C2 witness: a two-record exact-duplicate pair where the second record is
strictly newer. -/
theorem c2_witness :
    (mkDupGroup [c2old, c2new]).keepNewest = some c2new ∧
    c2new ∉ (mkDupGroup [c2old, c2new]).toDelete ∧
    c2new ∉ exactDeleteCandidates [c2old, c2new] :=
  c2_keep_newest_invariant [c2old, c2new] (mkDupGroup [c2old, c2new]) (by decide)
    c2new (by decide) (by decide) (by decide) (by decide)

/-- C6 (amended): with one OG record and one early record in the scan, the
matcher emits the single OG/early pairing exactly when the concatenated keys
`` `${collectionDate}-${individualSandwiches}` `` coincide; equal date and
count suffice for this, but the concatenated key is not injective, so the
pairing can also fire when both components differ. -/
theorem c6_amended_og_early_match (og early : SandwichCollection)
    (hog : isOgB og = true) (he : isEarlyB early = true) :
    ogDuplicates [og, early] =
      (if ogKey og = ogKey early then [OgMatch.ogEarly og early ogEarlyReason]
       else []) ∧
    (og.collectionDate = early.collectionDate →
      og.individualSandwiches = early.individualSandwiches →
      ogDuplicates [og, early] = [OgMatch.ogEarly og early ogEarlyReason]) := by
  have hoe : isOgB early = false := by
    rw [isEarlyB, Bool.and_eq_true] at he
    rcases he with ⟨h1, -⟩
    cases h : isOgB early
    · rfl
    · rw [h] at h1
      exact absurd h1 (by decide)
  have hEog : isEarlyB og = false := by
    rw [isEarlyB, hog]
    rfl
  have hfo : List.filter isOgB [og, early] = [og] := by
    simp [List.filter, hog, hoe]
  have hfe : List.filter isEarlyB [og, early] = [early] := by
    simp [List.filter, hEog, he]
  have hmain : ogDuplicates [og, early] =
      (if ogKey og = ogKey early then [OgMatch.ogEarly og early ogEarlyReason]
       else []) := by
    rw [ogDuplicates]
    have hdup : ogDupMatches [og, early] = [] := by
      rw [ogDupMatches, hfo]
      simp [keysInOrder, List.filter]
    rw [hdup, List.append_nil, ogEarlyMatches, hfo, hfe]
    by_cases hkey : ogKey og = ogKey early
    · rw [if_pos hkey]
      simp [List.filterMap, List.filter, hkey]
    · rw [if_neg hkey]
      simp [List.filterMap, List.filter, beq_eq_false_iff_ne.2 hkey]
  refine ⟨hmain, fun hd hc => ?_⟩
  rw [hmain, if_pos (by rw [ogKey, ogKey, hd, hc])]

/-- C6 counterexample: `c6og` has date `2021-01-` and count `5`, `c6early`
has date `2021-01` and count `-5`; both components differ, yet the keys
collide as `2021-01--5` and the matcher still emits the pairing. -/
theorem c6_counterexample_key_collision :
    c6og.collectionDate ≠ c6early.collectionDate ∧
    c6og.individualSandwiches ≠ c6early.individualSandwiches ∧
    isOgB c6og = true ∧ isEarlyB c6early = true ∧
    ogDuplicates [c6og, c6early] = [OgMatch.ogEarly c6og c6early ogEarlyReason] := by
  decide

/-- C6 witness: the spec's example — equal date `2021-01-05` and count `100`
produce exactly one pairing with the documented reason. -/
theorem c6_witness :
    isOgB c6ogW = true ∧ isEarlyB c6earlyW = true ∧
    ogDuplicates [c6ogW, c6earlyW] = [OgMatch.ogEarly c6ogW c6earlyW ogEarlyReason] :=
  ⟨by decide, by decide,
    (c6_amended_og_early_match c6ogW c6earlyW (by decide) (by decide)).2 rfl rfl⟩

/-- C5: the broad suspicious classifier flags exactly the records the narrow
one flags plus those whose lower-cased host name matches `group \d+` as a
whole; `Group 8` is flagged only by the broad classifier, `LOC downtown` by
both. -/
theorem c5_broad_vs_narrow_classifier :
    (∀ r : SandwichCollection,
        broadSuspicious r = (narrowSuspicious r || matchGroupNum (hostLower r))) ∧
    narrowSuspicious c5group8 = false ∧ broadSuspicious c5group8 = true ∧
    narrowSuspicious c5loc = true ∧ broadSuspicious c5loc = true := by
  refine ⟨fun r => ?_, by decide, by decide, by decide, by decide⟩
  rw [broadSuspicious, narrowSuspicious]
  cases hasStart (hostLower r) ("loc ".data) <;>
    cases matchGroupHyphen (hostLower r) <;>
    cases matchGroupNum (hostLower r) <;>
    cases hasSub (hostLower r) ("test".data) <;>
    cases hasSub (hostLower r) ("duplicate".data) <;> rfl

/-- C1 (amended): two records of the scan lie in the same grouping class iff
their concatenated keys `` `${date}-${host}-${count}-${groups}` `` coincide;
component-wise tuple equality is sufficient for this, but not necessary. -/
theorem c1_amended_same_group_iff_key (l : List SandwichCollection)
    (r1 r2 : SandwichCollection) (h1 : r1 ∈ l) (h2 : r2 ∈ l) :
    (inSameDuplicateGroup l r1 r2 ↔ recordKey r1 = recordKey r2) ∧
    (r1.collectionDate = r2.collectionDate → r1.hostName = r2.hostName →
      r1.individualSandwiches = r2.individualSandwiches →
      r1.groupCollections = r2.groupCollections → inSameDuplicateGroup l r1 r2) := by
  have main : inSameDuplicateGroup l r1 r2 ↔ recordKey r1 = recordKey r2 := by
    rw [inSameDuplicateGroup]
    constructor
    · rintro ⟨g, hg, hr1, hr2⟩
      rcases mem_groupsOf.1 hg with ⟨k, hk, rfl⟩
      have e1 := (List.mem_filter.1 hr1).2
      have e2 := (List.mem_filter.1 hr2).2
      simp only [beq_iff_eq] at e1 e2
      rw [e1, e2]
    · intro hk
      refine ⟨l.filter (fun c => recordKey c == recordKey r1), ?_, ?_, ?_⟩
      · exact mem_groupsOf.2 ⟨recordKey r1, mem_keysInOrder.2 ⟨r1, h1, rfl⟩, rfl⟩
      · exact List.mem_filter.2 ⟨h1, by simp⟩
      · exact List.mem_filter.2 ⟨h2, by simp [hk]⟩
  refine ⟨main, fun hd hh hi hg => main.2 ?_⟩
  rw [recordKey, recordKey, hd, hh, hi, hg]

/-- C1 counterexample: `c1A` and `c1B` differ in `collectionDate` and
`hostName`, yet land in the same grouping class — the hyphen-concatenated key
is not injective on the tuples — and they form a duplicate group. -/
theorem c1_counterexample_key_collision :
    inSameDuplicateGroup [c1A, c1B] c1A c1B ∧
    (analyzeDuplicates [c1A, c1B]).length = 1 ∧
    c1A.collectionDate ≠ c1B.collectionDate ∧ c1A.hostName ≠ c1B.hostName := by
  decide

/-- C1 witness: the amended theorem applied to the two-record scan. -/
theorem c1_witness :
    c1A ∈ [c1A, c1B] ∧
    (inSameDuplicateGroup [c1A, c1B] c1A c1B ↔ recordKey c1A = recordKey c1B) :=
  ⟨by decide,
    (c1_amended_same_group_iff_key [c1A, c1B] c1A c1B (by decide) (by decide)).1⟩

/-- C4: at the failing input the code keeps the record whose `submittedAt`
does not parse.  The comparator value between the unparsable and the parsable
record is `+0` in both orientations (`NaN` sent through `SortCompare`), so the
stable sort leaves the unparsable record in front: it becomes `keepNewest`,
and the parsable record lands in `toDelete` and among the exact-mode deletion
candidates. -/
theorem c4_unparsable_record_kept :
    c4bad.submittedAt = none ∧ c4good.submittedAt.isSome = true ∧
    recordKey c4bad = recordKey c4good ∧
    submittedCompare c4bad c4good = 0 ∧ submittedCompare c4good c4bad = 0 ∧
    analyzeDuplicates [c4bad, c4good] = [mkDupGroup [c4bad, c4good]] ∧
    (mkDupGroup [c4bad, c4good]).keepNewest = some c4bad ∧
    (mkDupGroup [c4bad, c4good]).toDelete = [c4good] ∧
    c4good ∈ exactDeleteCandidates [c4bad, c4good] := by
  decide

/-- C9: the bulk delete endpoint selects exactly the records whose host name
has the literal start `Loc ` or begins with `Group ` followed by a digit 1-8
(the regex is anchored at the start only), and its `deletedCount` counts the
selected records whose delete call returned a truthy result. -/
theorem c9_bulk_selection_and_count (l : List SandwichCollection)
    (del : Int → DelResult) :
    (∀ r : SandwichCollection,
        r ∈ l.filter bulkPredicateB ↔
          r ∈ l ∧
            ((∃ t, r.hostName.data = ("Loc ".data) ++ t) ∨
              (∃ c t, r.hostName.data =
                  'G' :: 'r' :: 'o' :: 'u' :: 'p' :: ' ' :: c :: t ∧
                '1' ≤ c ∧ c ≤ '8'))) ∧
    (bulkDelete l del).deletedCount = (l.filter bulkPredicateB).countP (isOkTrue del) := by
  constructor
  · intro r
    constructor
    · intro h
      rcases List.mem_filter.1 h with ⟨hm, hp⟩
      refine ⟨hm, ?_⟩
      rw [bulkPredicateB, Bool.or_eq_true] at hp
      rcases hp with hp | hp
      · exact Or.inl ((hasStart_iff _ _).1 hp)
      · exact Or.inr ((matchGroup18Start_iff _).1 hp)
    · rintro ⟨hm, hp⟩
      refine List.mem_filter.2 ⟨hm, ?_⟩
      rw [bulkPredicateB, Bool.or_eq_true]
      rcases hp with hp | hp
      · exact Or.inl ((hasStart_iff _ _).2 hp)
      · exact Or.inr ((matchGroup18Start_iff _).2 hp)
  · show bulkLoopCount del (sortByIdDesc (l.filter bulkPredicateB)) = _
    rw [bulkLoopCount_spec]
    exact countP_sortByIdDesc _ _

/-- C8: in clean-duplicates, `deletedCount` counts exactly the candidates
whose delete call returned a truthy result, `totalFound` counts every
candidate, and the error list has one entry per thrown delete only, so a falsy
(not-found) delete increments neither the count nor the error list.  The final
conjuncts evaluate a not-found candidate: count 0, no errors, `totalFound` 1. -/
theorem c8_deletedCount_truthy (mode : String) (l : List SandwichCollection)
    (del : Int → DelResult) :
    (cleanDuplicates mode l del).deletedCount =
        (cleanCandidates mode l).countP (isOkTrue del) ∧
    (cleanDuplicates mode l del).totalFound = (cleanCandidates mode l).length ∧
    (cleanLoop del (sortByIdDesc (cleanCandidates mode l))).2.length =
        (cleanCandidates mode l).countP (isThrown del) ∧
    (cleanDuplicates ("suspicious") [c7rec1] notFoundDel).deletedCount = 0 ∧
    (cleanDuplicates ("suspicious") [c7rec1] notFoundDel).errors = none ∧
    (cleanDuplicates ("suspicious") [c7rec1] notFoundDel).totalFound = 1 := by
  refine ⟨?_, rfl, ?_, by decide, by decide, by decide⟩
  · show (cleanLoop del (sortByIdDesc (cleanCandidates mode l))).1 = _
    rw [cleanLoop_spec]
    exact countP_sortByIdDesc _ _
  · rw [cleanLoop_spec]
    rw [length_filterMap_eq_countP, countP_sortByIdDesc]
    congr 1
    funext c
    cases h : del c.id with
    | ok b => cases b <;> simp [cleanErrOf, isThrown, h]
    | err m => simp [cleanErrOf, isThrown, h]

/-- C7: a thrown delete does not abort the loops: `deletedCount` still counts
the truthy deletes among all candidates, each throwing candidate contributes
exactly one error entry, and the response surfaces at most the first five
error messages.  The same holds for the batch-delete per-id loop.  The final
conjuncts evaluate candidates [1, 2, 3] where id 2 throws: ids 1 and 3 are
still deleted and counted, and one error entry references id 2. -/
theorem c7_partial_failure_isolation (mode : String) (l : List SandwichCollection)
    (del : Int → DelResult) (ids : List Int) :
    (cleanDuplicates mode l del).deletedCount =
        (cleanCandidates mode l).countP (isOkTrue del) ∧
    (cleanLoop del (sortByIdDesc (cleanCandidates mode l))).2.length =
        (cleanCandidates mode l).countP (isThrown del) ∧
    (cleanDuplicates mode l del).errors =
        (if (cleanLoop del (sortByIdDesc (cleanCandidates mode l))).2.isEmpty then none
         else some ((cleanLoop del (sortByIdDesc (cleanCandidates mode l))).2.take 5)) ∧
    (batchLoop del (List.insertionSort intDescLE ids)).1 =
        ids.countP (fun i => del i == DelResult.ok true) ∧
    (batchLoop del (List.insertionSort intDescLE ids)).2 =
        (List.insertionSort intDescLE ids).filterMap (batchErrOf del) ∧
    (cleanDuplicates ("suspicious") [c7rec1, c7rec2, c7rec3] boomDel).deletedCount = 2 ∧
    (cleanDuplicates ("suspicious") [c7rec1, c7rec2, c7rec3] boomDel).errors =
        some ["Failed to delete collection 2: boom"] ∧
    batchDelete [1, 2, 3] boomDel =
        Except.ok ⟨"Successfully deleted 2 of 3 collections", 2, 3,
          some ["Failed to delete collection 2: boom"]⟩ := by
  refine ⟨?_, ?_, rfl, ?_, ?_, by decide, by decide, by rfl⟩
  · show (cleanLoop del (sortByIdDesc (cleanCandidates mode l))).1 = _
    rw [cleanLoop_spec]
    exact countP_sortByIdDesc _ _
  · rw [cleanLoop_spec]
    rw [length_filterMap_eq_countP, countP_sortByIdDesc]
    congr 1
    funext c
    cases h : del c.id with
    | ok b => cases b <;> simp [cleanErrOf, isThrown, h]
    | err m => simp [cleanErrOf, isThrown, h]
  · rw [batchLoop_spec]
    exact (List.perm_insertionSort intDescLE ids).countP_eq _
  · rw [batchLoop_spec]

/-- C10: a clean-duplicates call whose mode is neither `exact` nor
`suspicious` computes an empty candidate list, issues no delete calls, leaves
the store unchanged, and reports `deletedCount = 0`, `totalFound = 0`, no
`errors` field and the supplied mode. -/
theorem c10_unknown_mode_noop (mode : String) (l : List SandwichCollection)
    (del : Int → DelResult) (h1 : mode ≠ "exact") (h2 : mode ≠ "suspicious") :
    cleanCandidates mode l = [] ∧
    cleanDeleteCallIds mode l = [] ∧
    storeAfterAllOk (cleanCandidates mode l) l = l ∧
    (cleanDuplicates mode l del).deletedCount = 0 ∧
    (cleanDuplicates mode l del).totalFound = 0 ∧
    (cleanDuplicates mode l del).errors = none ∧
    (cleanDuplicates mode l del).mode = mode := by
  have hc : cleanCandidates mode l = [] := by
    simp [cleanCandidates, h1, h2]
  refine ⟨hc, ?_, ?_, ?_, ?_, ?_, rfl⟩
  · rw [cleanDeleteCallIds, hc]
    rfl
  · rw [hc]
    simp [storeAfterAllOk]
  · show (cleanLoop del (sortByIdDesc (cleanCandidates mode l))).1 = 0
    rw [hc]
    rfl
  · show (cleanCandidates mode l).length = 0
    rw [hc]
    rfl
  · show (if (cleanLoop del (sortByIdDesc (cleanCandidates mode l))).2.isEmpty then _
        else _) = none
    rw [hc]
    rfl

/-- C10 witness: the `og-duplicates` mode mentioned in the source comment hits
the no-op path. -/
theorem c10_witness :
    ("og-duplicates" : String) ≠ "exact" ∧ ("og-duplicates" : String) ≠ "suspicious" ∧
    cleanCandidates ("og-duplicates") [c2old] = [] ∧
    (cleanDuplicates ("og-duplicates") [c2old] alwaysOkDel).deletedCount = 0 ∧
    (cleanDuplicates ("og-duplicates") [c2old] alwaysOkDel).errors = none :=
  ⟨by decide, by decide,
    (c10_unknown_mode_noop ("og-duplicates") [c2old] alwaysOkDel (by decide) (by decide)).1,
    (c10_unknown_mode_noop ("og-duplicates") [c2old] alwaysOkDel (by decide)
      (by decide)).2.2.2.1,
    (c10_unknown_mode_noop ("og-duplicates") [c2old] alwaysOkDel (by decide)
      (by decide)).2.2.2.2.2.1⟩

end SandwichPlatform
